import Mathlib

/-!
Shallow embedding of the Hospital Management System core
(`src/pms_core.py`, `src/dsa_pbl/pms_core.py`, `src/app.py`).

Collections of the JSON document are modelled as association lists kept in
insertion order (Python dicts preserve insertion order); the appointment and
referral collections are plain lists, as in the source.  Every operation that
mutates the document returns the new document together with a Boolean that
records whether `save_data` was called on the path taken, and a typed result
mirroring the string / dict the Python function returns.
-/

namespace HMS

/-- Record stored in the users collection, keyed by username. -/
structure UserRec where
  password : String
  role : String
  id : Option String
deriving DecidableEq

/-- Record stored in the patients collection, keyed by the patient id. -/
structure PatientRec where
  id : String
  name : String
  age : String
  gender : String
deriving DecidableEq

/-- Record stored in the doctors collection; the dict key equals the id field. -/
structure Doctor where
  id : String
  name : String
  specialty : String
deriving DecidableEq

/-- An appointment record; doctor_id is null for unassigned emergencies. -/
structure Appointment where
  id : String
  patient_id : String
  doctor_id : Option String
  date : String
  time : String
  problem : String
  status : String
deriving DecidableEq

/-- A referral record (append-only). -/
structure Referral where
  patient_id : String
  from_doc_id : Option String
  to_doc_id : String
  date : String
  notes : String
deriving DecidableEq

/-- A report entry stored under a patient id. -/
structure Report where
  report_id : String
  date : String
  doctor_id : Option String
  details : Option String
  file : Option String
deriving DecidableEq

/-- The whole JSON document held in `self.data`. -/
structure Data where
  users : List (String × UserRec)
  patients : List (String × PatientRec)
  doctors : List Doctor
  appointments : List Appointment
  reports : List (String × List Report)
  referrals : List Referral
deriving DecidableEq

/-- Python truthiness of an optional string: None, a missing key and the
empty string are all falsy. -/
def optTruthy : Option String → Bool
  | none => false
  | some s => s != ""

/-- Python's str.strip, modelled structurally on the character list so that
it evaluates inside the kernel: drop whitespace from both ends. -/
def pyStrip (s : String) : String :=
  ⟨((s.data.dropWhile Char.isWhitespace).reverse.dropWhile Char.isWhitespace).reverse⟩

/-- Python's str.lower, modelled structurally on the character list. -/
def pyLower (s : String) : String :=
  ⟨s.data.map Char.toLower⟩

/-- Split a character list at every occurrence of the separator, keeping
empty segments, as Python's str.split with an explicit separator does. -/
def splitOnChar (c : Char) : List Char → List (List Char)
  | [] => [[]]
  | x :: xs =>
    if x = c then [] :: splitOnChar c xs
    else
      match splitOnChar c xs with
      | [] => [[x]]
      | g :: gs => (x :: g) :: gs

/-- Read a nonempty all-digit character list as a number. -/
def digitsToNat? (l : List Char) : Option Nat :=
  if l ≠ [] ∧ l.all Char.isDigit then
    some (l.foldl (fun acc c => acc * 10 + (c.toNat - 48)) 0)
  else none

/-- Two-digit zero padding, as in the format string 02d of the source. -/
def pad2 (n : Nat) : String :=
  if n < 10 then "0" ++ toString n else toString n

/-- The HH:MM rendering produced by the f-strings in the source. -/
def timeStr (h m : Nat) : String :=
  pad2 h ++ ":" ++ pad2 m

/-- The problem_to_specialty dict literal of
PatientManagementSystem.book_appointment in src/pms_core.py. -/
def problem_to_specialty : List (String × String) :=
  [("Heart", "Cardiology"),
   ("Fever", "General Physician"),
   ("Skin", "Dermatologist"),
   ("Diabetes", "Endocrinologist"),
   ("Bone", "Orthopedic"),
   ("Can\x27t say", "General Physician")]

/-- problem_to_specialty.get(problem, general physician default). -/
def resolveSpecialty (problem : String) : String :=
  (problem_to_specialty.lookup problem).getD "General Physician"

/-- The sort key of book_appointment in src/pms_core.py: how many existing
appointments the doctor already has on the requested date (any status). -/
def sameDayCount (appts : List Appointment) (date docId : String) : Nat :=
  (appts.filter (fun a => a.doctor_id == some docId && a.date == date)).length

/-- The sort key lambda of book_appointment in src/pms_core.py, factored out
under a name: the doctor's existing appointment count on the requested date. -/
def bookKey (d : Data) (date : String) (doc : Doctor) : Nat :=
  sameDayCount d.appointments date doc.id

/-- Result of book_appointment in src/pms_core.py. -/
inductive BookResult
  | noDoctor (specialty : String)
  | booked (doctor : Doctor)
deriving DecidableEq

/-- The current user established by login. -/
structure CurrentUser where
  username : String
  role : String
  id : Option String
deriving DecidableEq

/-- PatientManagementSystem.login of src/pms_core.py: look the username up in
the users dict and compare the stored plaintext password; the document is
never touched and nothing is saved. -/
def login (d : Data) (username password : String) : Option CurrentUser :=
  match d.users.lookup username with
  | some u => if u.password = password then some ⟨username, u.role, u.id⟩ else none
  | none => none

/-- The patient id used by book_appointment in src/pms_core.py: the current
user's id when it is truthy, a freshly generated one otherwise. -/
def bookPid (currentId : Option String) (freshPid : String) : String :=
  match currentId with
  | some s => if s != "" then s else freshPid
  | none => freshPid

/-- PatientManagementSystem.book_appointment of src/pms_core.py (the
specialty-routing variant).  The name, age and gender arguments are accepted
and ignored exactly as in the source.  The Python code first returns early
when the candidate list is empty and then takes index 0 of the stably sorted
candidate list; since the sorted list is empty exactly when the candidate
list is, both steps are rendered as one match on the sorted list. -/
def book_appointment (d : Data) (currentId : Option String)
    (freshPid freshApptId : String)
    (_name _age _gender date time problem : String) :
    Data × Bool × BookResult :=
  let patient_id := bookPid currentId freshPid
  let specialty := resolveSpecialty problem
  let doctors := d.doctors.filter (fun doc => doc.specialty == specialty)
  match doctors.mergeSort (fun x y => decide (bookKey d date x ≤ bookKey d date y)) with
  | [] => (d, false, BookResult.noDoctor specialty)
  | doctor :: _ =>
    let appt : Appointment :=
      ⟨freshApptId, patient_id, some doctor.id, date, time, problem, "Approved"⟩
    ({d with appointments := d.appointments ++ [appt]}, true, BookResult.booked doctor)

/-- Selection function written from the words of the spec, for comparison
with the sort-then-head selection of the source: the element with the least
key, the first one in list order when several share the least key. -/
def firstMin (key : α → Nat) : List α → Option α
  | [] => none
  | x :: xs =>
    match firstMin key xs with
    | none => some x
    | some y => if key x ≤ key y then some x else some y

/-- Result of add_doctor (identical in both variants of pms_core.py). -/
inductive AddDoctorResult
  | usernameExists
  | created (name username id : String)
deriving DecidableEq

/-- PatientManagementSystem.add_doctor: derive a username from the name,
reject a collision, otherwise append the Doctor and User records and save. -/
def add_doctor (d : Data) (freshId name specialty password : String) :
    Data × Bool × AddDoctorResult :=
  let username := (name.toLower).replace " " "_"
  if (d.users.lookup username).isSome then
    (d, false, AddDoctorResult.usernameExists)
  else
    ({d with doctors := d.doctors ++ [⟨freshId, name, specialty⟩],
             users := d.users ++ [(username, ⟨password, "Doctor", some freshId⟩)]},
     true,
     AddDoctorResult.created name username freshId)

/-- The if-missing patient creation step shared by log_emergency and the
lineage book_appointment: add a minimal Patient record when the id has none. -/
def ensurePatient (d : Data) (pid name age gender2 : String) : Data :=
  if (d.patients.lookup pid).isNone then
    {d with patients := d.patients ++ [(pid, ⟨pid, name, age, gender2⟩)]}
  else d

/-- PatientManagementSystem.log_emergency of src/pms_core.py: ensure the
requester has a Patient record, append an Emergency appointment with no
doctor assigned, and save.  The date and time strings are the current wall
clock, passed in here as arguments. -/
def log_emergency (d : Data) (pid name age gender2 : String) (freshApptId problem nowDate nowTime : String) :
    Data × Bool × String :=
  let d1 := ensurePatient d pid name age gender2
  let e : Appointment :=
    ⟨freshApptId, pid, none, nowDate, nowTime, problem, "Emergency"⟩
  ({d1 with appointments := d1.appointments ++ [e]}, true, freshApptId)

/-- Result of create_referral. -/
inductive ReferralResult
  | patientNotFound
  | doctorNotFound
  | ok
deriving DecidableEq

/-- PatientManagementSystem.create_referral: validate the patient id and the
target doctor id, then append the referral and save. -/
def create_referral (d : Data) (fromDocId : Option String)
    (patient_id to_doc_id notes today : String) : Data × Bool × ReferralResult :=
  if (d.patients.lookup patient_id).isNone then
    (d, false, ReferralResult.patientNotFound)
  else if (d.doctors.find? (fun doc => doc.id == to_doc_id)).isNone then
    (d, false, ReferralResult.doctorNotFound)
  else
    ({d with referrals := d.referrals ++ [⟨patient_id, fromDocId, to_doc_id, today, notes⟩]},
     true, ReferralResult.ok)

/-- Result of upload_report. -/
inductive ReportResult
  | patientNotFound
  | uploaded (report_id : String)
deriving DecidableEq

/-- Append a report under a patient key of the reports collection, creating
the key when absent (the setdefault chain of the source). -/
def appendReport : List (String × List Report) → String → Report → List (String × List Report)
  | [], pid, r => [(pid, [r])]
  | (k, rs) :: rest, pid, r =>
    if k = pid then (k, rs ++ [r]) :: rest else (k, rs) :: appendReport rest pid r

/-- PatientManagementSystem.upload_report: validate the patient id, then
append a report record carrying the optional details and file name, and save. -/
def upload_report (d : Data) (docId : Option String) (patient_id freshReportId : String)
    (details fileName : Option String) (today : String) : Data × Bool × ReportResult :=
  if (d.patients.lookup patient_id).isNone then
    (d, false, ReportResult.patientNotFound)
  else
    let r : Report := ⟨freshReportId, today, docId, details, fileName⟩
    ({d with reports := appendReport d.reports patient_id r},
     true, ReportResult.uploaded freshReportId)

/-- PatientManagementSystem.get_emergency_cases of src/pms_core.py: the
appointments whose status lower-cases to emergency and whose doctor_id is the
querying doctor's or is falsy.  The Python builds a display row from each
such appointment; the projection modelled here is which appointments appear. -/
def get_emergency_cases (d : Data) (doctorId : String) : List Appointment :=
  d.appointments.filter
    (fun a => pyLower (pyStrip a.status) == "emergency" &&
      (a.doctor_id == some doctorId || !(optTruthy a.doctor_id)))

/-- The slot list of get_today_appointments in src/pms_core.py: for h in
range(9, 12) and range(14, 18), for m in range(0, 60, 10). -/
def slots : List String :=
  ((List.range' 9 3).flatMap fun h => (List.range' 0 6 10).map fun m => timeStr h m) ++
  ((List.range' 14 4).flatMap fun h => (List.range' 0 6 10).map fun m => timeStr h m)

/-- One row of the grid schedule view. -/
structure Slot where
  time : String
  status : String
  patient : String
  problem : String
  appt_id : Option String
deriving DecidableEq

/-- A fresh Available row for a slot time. -/
def emptySlot (t : String) : Slot :=
  ⟨t, "Available", "-", "-", none⟩

/-- The patient display name used by the schedule view. -/
def patientName (d : Data) (pid : String) : String :=
  ((d.patients.lookup pid).map (fun p => p.name)).getD "Unknown"

/-- The inner loop of get_today_appointments: write the appointment into the
first slot row whose time equals the appointment's stripped time, then stop. -/
def updateSlots : List Slot → String → Appointment → String → List Slot
  | [], _, _, _ => []
  | s :: rest, t, a, pname =>
    if s.time = t then
      {s with status := "Booked", patient := pname, problem := a.problem,
              appt_id := some a.id} :: rest
    else s :: updateSlots rest t a pname

/-- The body of the outer loop of get_today_appointments. -/
def todayStep (d : Data) (doctorId today : String) (sched : List Slot) (a : Appointment) :
    List Slot :=
  if a.doctor_id = some doctorId ∧ a.date = today ∧ pyLower (pyStrip a.status) = "approved" then
    updateSlots sched (pyStrip a.time) a (patientName d a.patient_id)
  else sched

/-- PatientManagementSystem.get_today_appointments of src/pms_core.py (the
grid view), with today's date passed in as an argument. -/
def get_today_appointments (d : Data) (doctorId today : String) : List Slot :=
  d.appointments.foldl (todayStep d doctorId today) (slots.map emptySlot)

/-- The condition under which get_today_appointments writes an appointment
into the grid slot of time t: the doctor, date and Approved-status filter of
the outer loop together with the slot-time match of the inner loop. -/
def bookedFor (doctorId today t : String) (a : Appointment) : Bool :=
  (a.doctor_id == some doctorId) && (a.date == today) &&
  (pyLower (pyStrip a.status) == "approved") && (pyStrip a.time == t)

/-- Gregorian leap year rule, as used by Python's datetime validation. -/
def isLeap (y : Nat) : Bool :=
  (y % 4 == 0 && y % 100 != 0) || y % 400 == 0

/-- Days in a month, as used by Python's datetime validation. -/
def daysInMonth (y m : Nat) : Nat :=
  if m = 2 then (if isLeap y then 29 else 28)
  else if m = 4 ∨ m = 6 ∨ m = 9 ∨ m = 11 then 30
  else 31

/-- Model of datetime.strptime(date and time, the %Y-%m-%d %H:%M format):
validates the fields and returns a timestamp in seconds on a scale that
preserves chronological order (each factor strictly bounds its field), or
none when the strings do not parse.  The current instant "now" lives on the
same scale, at second granularity, so that it can fall strictly between two
minute-aligned appointment instants. -/
def parseDateTime (ds ts : String) : Option Nat :=
  -- code point 45 is the hyphen separator, 58 the colon
  match splitOnChar (Char.ofNat 45) ds.data, splitOnChar (Char.ofNat 58) ts.data with
  | [ys, mos, days], [hs, mins] =>
    match digitsToNat? ys, digitsToNat? mos, digitsToNat? days, digitsToNat? hs,
        digitsToNat? mins with
    | some y, some mo, some day, some h, some mi =>
      if ys.length ≤ 4 ∧ mos.length ≤ 2 ∧ days.length ≤ 2 ∧ hs.length ≤ 2 ∧ mins.length ≤ 2 ∧
         1 ≤ mo ∧ mo ≤ 12 ∧ 1 ≤ day ∧ day ≤ daysInMonth y mo ∧ h ≤ 23 ∧ mi ≤ 59 then
        some (((((y * 13 + mo) * 32 + day) * 24 + h) * 60 + mi) * 60)
      else none
    | _, _, _, _, _ => none
  | _, _ => none

/-- The doctor display name used by the upcoming checkup view. -/
def doctorName (d : Data) (did : Option String) : String :=
  match did with
  | some i => ((d.doctors.find? (fun doc => doc.id == i)).map (fun doc => doc.name)).getD "N/A"
  | none => "N/A"

/-- The record the upcoming checkup view keeps for the best candidate so far. -/
structure Upcoming where
  datetime : Nat
  date : String
  time : String
  doctor : String
  problem : String
deriving DecidableEq

/-- The body of the loop of get_upcoming_checkup: keep the accumulator unless
this appointment is the requester's, approved, parses, is strictly in the
future and strictly earlier than the accumulator. -/
def upcomingStep (d : Data) (pid : String) (now : Nat) (acc : Option Upcoming)
    (a : Appointment) : Option Upcoming :=
  if a.patient_id = pid ∧ pyLower (pyStrip a.status) = "approved" then
    match parseDateTime a.date a.time with
    | none => acc
    | some k =>
      if now < k then
        match acc with
        | none => some ⟨k, a.date, a.time, doctorName d a.doctor_id, a.problem⟩
        | some u =>
          if k < u.datetime then
            some ⟨k, a.date, a.time, doctorName d a.doctor_id, a.problem⟩
          else acc
      else acc
  else acc

/-- PatientManagementSystem.get_upcoming_checkup of src/pms_core.py, with the
current instant passed in as a timestamp on the parseDateTime scale. -/
def get_upcoming_checkup (d : Data) (pid : String) (now : Nat) : Option Upcoming :=
  d.appointments.foldl (upcomingStep d pid now) none

/-- Result of the signup route. -/
inductive SignupResult
  | usernameTaken
  | ok (username pid : String)
deriving DecidableEq

/-- The signup route of src/app.py: strip and lower-case the username, strip
the other fields, reject an existing username, otherwise create the paired
User and Patient records and save. -/
def signup (d : Data) (freshPid : String) (username password name age gender2 : String) :
    Data × Bool × SignupResult :=
  let uname := pyLower (pyStrip username)
  let pw := pyStrip password
  if (d.users.lookup uname).isSome then
    (d, false, SignupResult.usernameTaken)
  else
    ({d with users := d.users ++ [(uname, ⟨pw, "Patient", some freshPid⟩)],
             patients := d.patients ++
               [(freshPid, ⟨freshPid, pyStrip name, pyStrip age, pyStrip gender2⟩)]},
     true, SignupResult.ok uname freshPid)

/-- The login route of src/app.py: strip both fields (without lower-casing
the username) and call PatientManagementSystem.login. -/
def login_route (d : Data) (username password : String) : Option CurrentUser :=
  login d (pyStrip username) (pyStrip password)

namespace Dsa

/-- The allowed_times list of book_appointment in src/dsa_pbl/pms_core.py:
for h in range(9, 12) and range(14, 18), for m in range(0, 60, 10). -/
def allowed_times : List String :=
  ((List.range' 9 3).flatMap fun h => (List.range' 0 6 10).map fun m => timeStr h m) ++
  ((List.range' 14 4).flatMap fun h => (List.range' 0 6 10).map fun m => timeStr h m)

/-- Result of book_appointment in src/dsa_pbl/pms_core.py. -/
inductive BookResult
  | invalidSlot
  | noDoctors
  | conflict
  | booked (apptId docId : String)
deriving DecidableEq

/-- PatientManagementSystem.book_appointment of src/dsa_pbl/pms_core.py (the
lineage variant): ensure the requester has a Patient record, validate the
slot, assign the first doctor of the collection, reject a date and time
clash with an Approved appointment of that doctor, otherwise append and save. -/
def book_appointment (d : Data) (pid : String)
    (name age gender2 : String) (freshApptId date time problem : String) :
    Data × Bool × BookResult :=
  let d1 := ensurePatient d pid name age gender2
  if time ∉ allowed_times then
    (d1, false, BookResult.invalidSlot)
  else
    match d1.doctors.map (fun doc => doc.id) with
    | [] => (d1, false, BookResult.noDoctors)
    | assigned :: _ =>
      if d1.appointments.any (fun a =>
          a.doctor_id == some assigned && a.date == date && a.time == time &&
          a.status == "Approved") then
        (d1, false, BookResult.conflict)
      else
        let appt : Appointment :=
          ⟨freshApptId, pid, some assigned, date, time, problem, "Approved"⟩
        ({d1 with appointments := d1.appointments ++ [appt]}, true,
         BookResult.booked freshApptId assigned)

end Dsa

/-- Generation of the slot set from the words of the spec: the 10-minute
boundaries whose hour lies within the given inclusive hour range. -/
def tenMinuteBoundaries (hlo hhi : Nat) : List String :=
  ((((List.range 24).flatMap fun h => (List.range 60).map fun m => (h, m)).filter
      (fun p => hlo ≤ p.1 && p.1 ≤ hhi && p.2 % 10 == 0)).map
    fun p => timeStr p.1 p.2)

/-- The candidate list built by book_appointment in src/pms_core.py: the
doctors whose specialty string equals the resolved specialty, in the
insertion order of the doctors collection. -/
def candidateDoctors (d : Data) (problem : String) : List Doctor :=
  d.doctors.filter (fun doc => doc.specialty == resolveSpecialty problem)

/-- The empty document, used as a small concrete test input. -/
def wData0 : Data where
  users := []
  patients := []
  doctors := []
  appointments := []
  reports := []
  referrals := []

/-- Document for the two-cardiologists scenario of the spec: Dr. A with no
appointment on the requested date, Dr. B with two. -/
def wData1 : Data where
  users := []
  patients := [("p1", ⟨"p1", "Pat One", "30", "F"⟩)]
  doctors := [⟨"dA", "Dr. A", "Cardiology"⟩, ⟨"dB", "Dr. B", "Cardiology"⟩]
  appointments :=
    [⟨"x1", "p2", some "dB", "2025-01-02", "09:00", "Heart", "Approved"⟩,
     ⟨"x2", "p3", some "dB", "2025-01-02", "09:10", "Heart", "Approved"⟩]
  reports := []
  referrals := []

/-- Document with an existing Approved appointment of the first doctor at
the probed date and time, for the conflict scenario. -/
def wData2 : Data :=
  {wData1 with appointments :=
    [⟨"x3", "p2", some "dA", "2025-01-02", "09:00", "Heart", "Approved"⟩]}

/-- An appointment of the requesting patient that is approved, parses, and
lies strictly after the current instant — the condition under which the
upcoming checkup loop may replace its accumulator. -/
@[reducible] def qualifies (pid : String) (now : Nat) (a : Appointment) (k : Nat) : Prop :=
  a.patient_id = pid ∧ pyLower (pyStrip a.status) = "approved" ∧
  parseDateTime a.date a.time = some k ∧ now < k

/-- Document with two future Approved appointments of patient p1, the
earlier one listed second. -/
def wData6 : Data where
  users := []
  patients := []
  doctors := [⟨"dA", "Dr. A", "Cardiology"⟩]
  appointments :=
    [⟨"u1", "p1", some "dA", "2026-01-02", "10:00", "Heart", "Approved"⟩,
     ⟨"u2", "p1", some "dA", "2026-01-01", "09:00", "Heart", "Approved"⟩]
  reports := []
  referrals := []

/-- Document with two emergencies: one whose doctor_id is the empty string
and one unassigned (null). -/
def wData7 : Data where
  users := []
  patients := [("p1", ⟨"p1", "P One", "30", "F"⟩)]
  doctors := [⟨"doc1", "Dr. D", "Cardiology"⟩]
  appointments :=
    [⟨"e1", "p1", some "", "2025-01-01", "10:00", "X", "Emergency"⟩,
     ⟨"e2", "p1", none, "2025-01-01", "10:05", "Y", "Emergency"⟩]
  reports := []
  referrals := []

/-- Document with two Approved appointments of the same doctor at the same
slot time on the probed date. -/
def wData10 : Data where
  users := []
  patients := []
  doctors := [⟨"d1", "Dr. D", "Cardiology"⟩]
  appointments :=
    [⟨"a1", "p1", some "d1", "2025-03-03", "09:00", "X1", "Approved"⟩,
     ⟨"a2", "p2", some "d1", "2025-03-03", "09:00", "X2", "Approved"⟩]
  reports := []
  referrals := []

/-- Document with one patient and one doctor, for the referral scenario. -/
def wData9 : Data where
  users := []
  patients := [("p1", ⟨"p1", "P One", "30", "F"⟩)]
  doctors := [⟨"d1", "Dr. D", "Cardiology"⟩]
  appointments := []
  reports := []
  referrals := []

/-! ### Theorems -/

/-- A list has no first minimum exactly when it is empty. -/
theorem firstMin_eq_none {key : α → Nat} :
    ∀ {l : List α}, firstMin key l = none ↔ l = []
  | [] => by simp [firstMin]
  | x :: xs => by
    rw [firstMin]
    cases h : firstMin key xs with
    | none => simp
    | some y =>
      dsimp only
      split <;> simp

/-- The first minimum is a member of the list. -/
theorem firstMin_mem {key : α → Nat} :
    ∀ {l : List α} {d : α}, firstMin key l = some d → d ∈ l := by
  intro l
  induction l with
  | nil => intro d h; simp [firstMin] at h
  | cons x xs ih =>
    intro d h
    rw [firstMin] at h
    cases hx : firstMin key xs with
    | none => rw [hx] at h; simp at h; simp [h]
    | some y =>
      rw [hx] at h
      dsimp only at h
      by_cases hk : key x ≤ key y
      · rw [if_pos hk] at h
        simp at h
        simp [h]
      · rw [if_neg hk] at h
        simp at h
        subst h
        exact List.mem_cons_of_mem x (ih hx)

/-- The first minimum has the least key of the list. -/
theorem firstMin_min {key : α → Nat} :
    ∀ {l : List α} {d : α}, firstMin key l = some d → ∀ x ∈ l, key d ≤ key x := by
  intro l
  induction l with
  | nil => intro d h; simp [firstMin] at h
  | cons x xs ih =>
    intro d h z hz
    rw [firstMin] at h
    cases hx : firstMin key xs with
    | none =>
      rw [hx] at h
      simp at h
      subst h
      rcases List.mem_cons.mp hz with hz | hz
      · subst hz; exact Nat.le_refl _
      · exact absurd (firstMin_eq_none.mp hx ▸ hz) (List.not_mem_nil z)
    | some y =>
      rw [hx] at h
      dsimp only at h
      by_cases hk : key x ≤ key y
      · rw [if_pos hk] at h
        simp at h
        subst h
        rcases List.mem_cons.mp hz with hz | hz
        · subst hz; exact Nat.le_refl _
        · exact Nat.le_trans hk (ih hx z hz)
      · rw [if_neg hk] at h
        simp at h
        subst h
        rcases List.mem_cons.mp hz with hz | hz
        · subst hz; omega
        · exact ih hx z hz

/-- The first minimum occurs at a position before which every key is
strictly larger. -/
theorem firstMin_first {key : α → Nat} :
    ∀ {l : List α} {d : α}, firstMin key l = some d →
      ∃ i, ∃ h : i < l.length, l.get ⟨i, h⟩ = d ∧
        ∀ j, ∀ hj : j < i, key d < key (l.get ⟨j, Nat.lt_trans hj h⟩) := by
  intro l
  induction l with
  | nil => intro d h; simp [firstMin] at h
  | cons x xs ih =>
    intro d h
    rw [firstMin] at h
    cases hx : firstMin key xs with
    | none =>
      rw [hx] at h
      simp at h
      subst h
      exact ⟨0, by simp, rfl, fun j hj => absurd hj (Nat.not_lt_zero j)⟩
    | some y =>
      rw [hx] at h
      dsimp only at h
      by_cases hk : key x ≤ key y
      · rw [if_pos hk] at h
        simp at h
        subst h
        exact ⟨0, by simp, rfl, fun j hj => absurd hj (Nat.not_lt_zero j)⟩
      · rw [if_neg hk] at h
        simp at h
        subst h
        obtain ⟨i, hi, hget, hbefore⟩ := ih hx
        refine ⟨i + 1, by simpa using Nat.succ_lt_succ hi, by simpa using hget, ?_⟩
        intro j hj
        cases j with
        | zero =>
          simpa using Nat.lt_of_not_le hk
        | succ j =>
          simpa using hbefore j (Nat.lt_of_succ_lt_succ hj)

/-- Head of the stable merge sort by a numeric key: the first element
attaining the least key, which is how Python's stable list.sort followed by
indexing 0 behaves. -/
theorem head_mergeSort_firstMin (key : α → Nat) :
    ∀ l : List α,
      (l.mergeSort (fun x y => decide (key x ≤ key y))).head? = firstMin key l := by
  have htrans : ∀ a b c : α, decide (key a ≤ key b) → decide (key b ≤ key c) →
      decide (key a ≤ key c) = true := by
    intro a b c hab hbc
    simp only [decide_eq_true_eq] at *
    omega
  have htotal : ∀ a b : α, (decide (key a ≤ key b) || decide (key b ≤ key a)) = true := by
    intro a b
    simp only [Bool.or_eq_true, decide_eq_true_eq]
    omega
  intro l
  induction l with
  | nil => simp [firstMin]
  | cons a l ih =>
    obtain ⟨l₁, l₂, h₁, h₂, h₃⟩ := List.mergeSort_cons htrans htotal a l
    have hs := List.sorted_mergeSort htrans htotal (a :: l)
    rw [h₁] at hs ⊢
    rw [h₂] at ih
    cases l₁ with
    | nil =>
      simp only [List.nil_append] at hs ih ⊢
      cases hfm : firstMin key l with
      | none => simp [firstMin, hfm]
      | some y =>
        rw [hfm] at ih
        cases l₂ with
        | nil => simp at ih
        | cons b t =>
          simp only [List.head?_cons, Option.some.injEq] at ih
          subst ih
          have hay : key a ≤ key b := by
            have := (List.pairwise_cons.mp hs).1 b (List.mem_cons_self b t)
            simpa using this
          simp [firstMin, hfm, hay]
    | cons c t =>
      have hc : firstMin key l = some c := by simpa using ih.symm
      have hca : ¬ key a ≤ key c := by
        have := h₃ c (List.mem_cons_self c t)
        simpa using this
      simp [firstMin, hc, hca]

/-- C1: in the specialty-routing variant, a successful booking assigns the
candidate doctor with the fewest existing appointments already booked on the
requested date; when several candidates share that minimum, the one appearing
first in the doctors collection's insertion order is chosen.  The selection
is a function of the document and the request, hence deterministic. -/
theorem book_appointment_least_loaded_first_wins
    (d : Data) (currentId : Option String) (freshPid freshApptId : String)
    (name age gender2 date time problem : String)
    (d1 : Data) (saved : Bool) (doctor : Doctor)
    (hres : book_appointment d currentId freshPid freshApptId name age gender2 date time problem
      = (d1, saved, BookResult.booked doctor)) :
    doctor ∈ candidateDoctors d problem ∧
    (∀ x ∈ candidateDoctors d problem,
      sameDayCount d.appointments date doctor.id ≤ sameDayCount d.appointments date x.id) ∧
    ∃ i, ∃ h : i < (candidateDoctors d problem).length,
      (candidateDoctors d problem).get ⟨i, h⟩ = doctor ∧
      ∀ j, ∀ hj : j < i,
        sameDayCount d.appointments date doctor.id <
          sameDayCount d.appointments date
            ((candidateDoctors d problem).get ⟨j, Nat.lt_trans hj h⟩).id := by
  have hkey := head_mergeSort_firstMin (bookKey d date)
    (d.doctors.filter fun doc => doc.specialty == resolveSpecialty problem)
  simp only [book_appointment] at hres
  cases hsort : (d.doctors.filter fun doc => doc.specialty == resolveSpecialty problem).mergeSort
      (fun x y => decide (bookKey d date x ≤ bookKey d date y)) with
  | nil =>
    rw [hsort] at hres
    simp at hres
  | cons doc rest =>
    rw [hsort] at hres
    dsimp only at hres
    simp only [Prod.mk.injEq, BookResult.booked.injEq] at hres
    obtain ⟨-, -, hdoc⟩ := hres
    subst hdoc
    rw [hsort] at hkey
    simp only [List.head?_cons] at hkey
    exact ⟨firstMin_mem hkey.symm, firstMin_min hkey.symm, firstMin_first hkey.symm⟩

/-- Witness for C1, the scenario of the spec: two cardiologists, Dr. A with
no appointment on the requested date and Dr. B with two; booking a Heart
problem selects Dr. A, who is first with the least count. -/
theorem book_appointment_least_loaded_first_wins_witness :
    Doctor.mk "dA" "Dr. A" "Cardiology" ∈ candidateDoctors wData1 "Heart" ∧
    (∀ x ∈ candidateDoctors wData1 "Heart",
      sameDayCount wData1.appointments "2025-01-02" "dA" ≤
        sameDayCount wData1.appointments "2025-01-02" x.id) := by
  have hfil : wData1.doctors.filter (fun doc => doc.specialty == resolveSpecialty "Heart")
      = [Doctor.mk "dA" "Dr. A" "Cardiology", Doctor.mk "dB" "Dr. B" "Cardiology"] := by
    decide
  have hms : (wData1.doctors.filter fun doc => doc.specialty == resolveSpecialty "Heart").mergeSort
      (fun x y => decide (bookKey wData1 "2025-01-02" x ≤ bookKey wData1 "2025-01-02" y))
      = [Doctor.mk "dA" "Dr. A" "Cardiology", Doctor.mk "dB" "Dr. B" "Cardiology"] := by
    rw [hfil]
    exact List.mergeSort_of_sorted (List.pairwise_pair.mpr (by decide))
  have hres : book_appointment wData1 (some "p1") "f1" "a1" "Pat One" "30" "F"
      "2025-01-02" "09:30" "Heart"
      = ({wData1 with appointments := wData1.appointments ++
          [⟨"a1", "p1", some "dA", "2025-01-02", "09:30", "Heart", "Approved"⟩]},
         true, BookResult.booked (Doctor.mk "dA" "Dr. A" "Cardiology")) := by
    simp only [book_appointment, hms]
    rfl
  have h := book_appointment_least_loaded_first_wins wData1 (some "p1") "f1" "a1"
    "Pat One" "30" "F" "2025-01-02" "09:30" "Heart" _ true _ hres
  exact ⟨h.1, h.2.1⟩

/-- C2 counterexample: the problem string Fever is a key of the fixed
problem-to-specialty table (mapped to General Physician), so the claim's
assertion that Fever is not in the table fails. -/
theorem fever_is_in_specialty_table :
    ("Fever", "General Physician") ∈ problem_to_specialty ∧
    problem_to_specialty.lookup "Fever" = some "General Physician" := by
  decide

/-- C2 as amended: specialty resolution goes through the fixed table, any
problem whose key is absent resolves to General Physician, Fever is in the
table and resolves to General Physician, Heart resolves to Cardiology; the
candidate set is exactly the doctors whose specialty string equals the
resolved specialty, and when it is empty the booking fails with a
no-doctor-available result naming the specialty, creating nothing. -/
theorem book_appointment_specialty_routing
    (d : Data) (currentId : Option String)
    (freshPid freshApptId name age gender2 date time problem : String) :
    (problem_to_specialty.lookup problem = none →
      resolveSpecialty problem = "General Physician") ∧
    resolveSpecialty "Fever" = "General Physician" ∧
    resolveSpecialty "Heart" = "Cardiology" ∧
    (∀ doc : Doctor, doc ∈ candidateDoctors d problem ↔
      doc ∈ d.doctors ∧ doc.specialty = resolveSpecialty problem) ∧
    (candidateDoctors d problem = [] →
      book_appointment d currentId freshPid freshApptId name age gender2 date time problem
        = (d, false, BookResult.noDoctor (resolveSpecialty problem))) := by
  refine ⟨?_, by decide, by decide, ?_, ?_⟩
  · intro h
    simp [resolveSpecialty, h]
  · intro doc
    simp [candidateDoctors, List.mem_filter]
  · intro hempty
    simp only [candidateDoctors] at hempty
    simp only [book_appointment, hempty, List.mergeSort_nil]

/-- Witness for C2: an unmapped problem resolves to General Physician and,
with no general physician in the document, booking fails without mutation. -/
theorem book_appointment_specialty_routing_witness :
    book_appointment wData1 (some "p1") "f1" "a1" "Pat One" "30" "F"
      "2025-01-02" "09:30" "Toothache"
      = (wData1, false, BookResult.noDoctor "General Physician") := by
  have h := book_appointment_specialty_routing wData1 (some "p1")
    "f1" "a1" "Pat One" "30" "F" "2025-01-02" "09:30" "Toothache"
  have he : candidateDoctors wData1 "Toothache" = [] := by decide
  have hr : resolveSpecialty "Toothache" = "General Physician" := by decide
  rw [hr] at h
  exact h.2.2.2.2 he

/-- Creating a missing patient record does not change the users collection. -/
theorem ensurePatient_users (d : Data) (pid n a g : String) :
    (ensurePatient d pid n a g).users = d.users := by
  unfold ensurePatient; split <;> rfl

/-- Creating a missing patient record does not change the doctors collection. -/
theorem ensurePatient_doctors (d : Data) (pid n a g : String) :
    (ensurePatient d pid n a g).doctors = d.doctors := by
  unfold ensurePatient; split <;> rfl

/-- Creating a missing patient record does not change the appointments. -/
theorem ensurePatient_appointments (d : Data) (pid n a g : String) :
    (ensurePatient d pid n a g).appointments = d.appointments := by
  unfold ensurePatient; split <;> rfl

/-- Creating a missing patient record does not change the reports. -/
theorem ensurePatient_reports (d : Data) (pid n a g : String) :
    (ensurePatient d pid n a g).reports = d.reports := by
  unfold ensurePatient; split <;> rfl

/-- Creating a missing patient record does not change the referrals. -/
theorem ensurePatient_referrals (d : Data) (pid n a g : String) :
    (ensurePatient d pid n a g).referrals = d.referrals := by
  unfold ensurePatient; split <;> rfl

/-- The patient collection either stays unchanged or gains exactly the one
minimal record for the requester. -/
theorem ensurePatient_patients (d : Data) (pid n a g : String) :
    (ensurePatient d pid n a g).patients = d.patients ∨
    (ensurePatient d pid n a g).patients = d.patients ++ [(pid, ⟨pid, n, a, g⟩)] := by
  unfold ensurePatient
  split
  · exact Or.inr rfl
  · exact Or.inl rfl

/-- C3: the specialty-routing variant performs no double-booking check: with
a nonempty candidate set the booking appends the new Approved appointment,
and still does so when the chosen doctor already has an Approved appointment
at the requested date and time; the lineage variant rejects exactly that
clash with a conflict error and appends nothing. -/
theorem double_booking_check_only_in_lineage_variant
    (d : Data) (currentId : Option String) (freshPid freshApptId : String)
    (name age gender2 date time problem : String) :
    (candidateDoctors d problem ≠ [] →
      ∃ doctor appt,
        book_appointment d currentId freshPid freshApptId name age gender2 date time problem
          = ({d with appointments := d.appointments ++ [appt]}, true, BookResult.booked doctor) ∧
        appt.doctor_id = some doctor.id ∧ appt.date = date ∧ appt.time = time ∧
        appt.status = "Approved") ∧
    (∀ d1 saved doctor,
      book_appointment d currentId freshPid freshApptId name age gender2 date time problem
          = (d1, saved, BookResult.booked doctor) →
      (∃ a ∈ d.appointments, a.doctor_id = some doctor.id ∧ a.date = date ∧ a.time = time ∧
        a.status = "Approved") →
      saved = true ∧ ∃ appt, d1.appointments = d.appointments ++ [appt] ∧
        appt.doctor_id = some doctor.id ∧ appt.date = date ∧ appt.time = time ∧
        appt.status = "Approved") ∧
    (∀ pid firstDoc restDocs,
      d.doctors = firstDoc :: restDocs →
      time ∈ Dsa.allowed_times →
      (d.appointments.any fun a => a.doctor_id == some firstDoc.id && a.date == date &&
        a.time == time && a.status == "Approved") = true →
      ∃ d1, Dsa.book_appointment d pid name age gender2 freshApptId date time problem
          = (d1, false, Dsa.BookResult.conflict) ∧ d1.appointments = d.appointments) := by
  refine ⟨?_, ?_, ?_⟩
  · intro hne
    simp only [candidateDoctors] at hne
    cases hsort : (d.doctors.filter fun doc => doc.specialty == resolveSpecialty problem).mergeSort
        (fun x y => decide (bookKey d date x ≤ bookKey d date y)) with
    | nil =>
      have hperm := List.mergeSort_perm
        (d.doctors.filter fun doc => doc.specialty == resolveSpecialty problem)
        (fun x y => decide (bookKey d date x ≤ bookKey d date y))
      rw [hsort] at hperm
      exact absurd hperm.symm.eq_nil hne
    | cons doc rest =>
      refine ⟨doc,
        ⟨freshApptId, bookPid currentId freshPid,
         some doc.id, date, time, problem, "Approved"⟩, ?_, rfl, rfl, rfl, rfl⟩
      simp only [book_appointment, hsort]
  · intro d1 saved doctor hres hconf
    cases hsort : (d.doctors.filter fun doc => doc.specialty == resolveSpecialty problem).mergeSort
        (fun x y => decide (bookKey d date x ≤ bookKey d date y)) with
    | nil =>
      simp only [book_appointment, hsort] at hres
      simp at hres
    | cons doc rest =>
      simp only [book_appointment, hsort] at hres
      simp only [Prod.mk.injEq, BookResult.booked.injEq] at hres
      obtain ⟨h1, h2, h3⟩ := hres
      refine ⟨h2.symm, ⟨freshApptId, bookPid currentId freshPid,
        some doc.id, date, time, problem, "Approved"⟩,
        (congrArg Data.appointments h1).symm, ?_, rfl, rfl, rfl⟩
      show some doc.id = some doctor.id
      rw [h3]
  · intro pid firstDoc restDocs hdocs htime hconf
    have hd : (ensurePatient d pid name age gender2).doctors = firstDoc :: restDocs := by
      rw [ensurePatient_doctors, hdocs]
    have ha : (ensurePatient d pid name age gender2).appointments = d.appointments :=
      ensurePatient_appointments d pid name age gender2
    refine ⟨ensurePatient d pid name age gender2, ?_, ha⟩
    simp only [Dsa.book_appointment]
    rw [if_neg (not_not_intro htime)]
    simp only [hd, List.map_cons]
    rw [ha, if_pos hconf]

/-- Witness for C3: with a cardiologist available and an existing Approved
appointment of the first doctor at the very same date and time, the
specialty-routing variant books anyway while the lineage variant rejects
with a conflict and leaves the appointments unchanged. -/
theorem double_booking_check_only_in_lineage_variant_witness :
    (candidateDoctors wData1 "Heart" ≠ [] ∧
      ∃ doctor appt,
        book_appointment wData1 (some "p1") "f1" "a1" "Pat One" "30" "F"
            "2025-01-02" "09:00" "Heart"
          = ({wData1 with appointments := wData1.appointments ++ [appt]},
             true, BookResult.booked doctor)) ∧
    ∃ d1, Dsa.book_appointment wData2 "p1" "Pat One" "30" "F" "a1"
        "2025-01-02" "09:00" "Heart" = (d1, false, Dsa.BookResult.conflict) ∧
      d1.appointments = wData2.appointments := by
  constructor
  · have h := double_booking_check_only_in_lineage_variant wData1 (some "p1") "f1" "a1"
      "Pat One" "30" "F" "2025-01-02" "09:00" "Heart"
    have hne : candidateDoctors wData1 "Heart" ≠ [] := by decide
    obtain ⟨doctor, appt, hb, -⟩ := h.1 hne
    exact ⟨hne, doctor, appt, hb⟩
  · have h := double_booking_check_only_in_lineage_variant wData2 (some "p1") "f1" "a1"
      "Pat One" "30" "F" "2025-01-02" "09:00" "Heart"
    have hdocs : wData2.doctors =
        Doctor.mk "dA" "Dr. A" "Cardiology" :: [Doctor.mk "dB" "Dr. B" "Cardiology"] := rfl
    exact h.2.2 "p1" (Doctor.mk "dA" "Dr. A" "Cardiology")
      [Doctor.mk "dB" "Dr. B" "Cardiology"] hdocs (by decide) (by decide)

/-- Every outcome of the lineage book_appointment is either a successful
booking or a failure that returns the patient-ensured document unsaved. -/
theorem dsa_book_failure_shape (d : Data) (pid nm ag gd fid date time problem : String) :
    (∃ i dc, (Dsa.book_appointment d pid nm ag gd fid date time problem).2.2
        = Dsa.BookResult.booked i dc) ∨
    ∃ res, Dsa.book_appointment d pid nm ag gd fid date time problem
        = (ensurePatient d pid nm ag gd, false, res) := by
  simp only [Dsa.book_appointment]
  by_cases ht : time ∉ Dsa.allowed_times
  · right
    rw [if_pos ht]
    exact ⟨Dsa.BookResult.invalidSlot, rfl⟩
  · rw [if_neg ht]
    cases hd : (ensurePatient d pid nm ag gd).doctors.map (fun doc => doc.id) with
    | nil =>
      right
      exact ⟨Dsa.BookResult.noDoctors, rfl⟩
    | cons a as =>
      dsimp only
      by_cases hcf : ((ensurePatient d pid nm ag gd).appointments.any fun x =>
          x.doctor_id == some a && x.date == date && x.time == time &&
          x.status == "Approved") = true
      · right
        rw [if_pos hcf]
        exact ⟨Dsa.BookResult.conflict, rfl⟩
      · left
        rw [if_neg hcf]
        exact ⟨fid, a, rfl⟩

/-- C4 counterexample: in the lineage variant, booking with an unknown
patient id and an invalid slot time returns a failure, yet the in-memory
document differs from the pre-call state: the requester's Patient record was
created before validation ran. -/
theorem failed_booking_changes_document :
    (Dsa.book_appointment wData0 "p1" "Nn" "20" "M" "x1" "2025-01-01" "08:00" "Fever").2.2
      = Dsa.BookResult.invalidSlot ∧
    (Dsa.book_appointment wData0 "p1" "Nn" "20" "M" "x1" "2025-01-01" "08:00" "Fever").1
      ≠ wData0 := by
  decide

/-- C4 as amended: every failing operation leaves the document unchanged and
unsaved — except the lineage book_appointment, which may first create the
requester's minimal Patient record and leave it in the in-memory document on
failure; even there nothing is persisted before validation passes, every
other collection is untouched, and log_emergency never fails. -/
theorem operations_persist_only_after_validation (d : Data) :
    (∀ freshId nm sp pw,
      (add_doctor d freshId nm sp pw).2.2 = AddDoctorResult.usernameExists →
      (add_doctor d freshId nm sp pw).1 = d ∧ (add_doctor d freshId nm sp pw).2.1 = false) ∧
    (∀ currentId freshPid freshApptId nm ag gd date time problem s,
      (book_appointment d currentId freshPid freshApptId nm ag gd date time problem).2.2
        = BookResult.noDoctor s →
      (book_appointment d currentId freshPid freshApptId nm ag gd date time problem).1 = d ∧
      (book_appointment d currentId freshPid freshApptId nm ag gd date time problem).2.1 = false) ∧
    (∀ pid nm ag gd fid problem nowDate nowTime,
      (log_emergency d pid nm ag gd fid problem nowDate nowTime).2.1 = true) ∧
    (∀ fromId pid toId notes today,
      (create_referral d fromId pid toId notes today).2.2 ≠ ReferralResult.ok →
      (create_referral d fromId pid toId notes today).1 = d ∧
      (create_referral d fromId pid toId notes today).2.1 = false) ∧
    (∀ docId pid rid details fileName today,
      (upload_report d docId pid rid details fileName today).2.2 = ReportResult.patientNotFound →
      (upload_report d docId pid rid details fileName today).1 = d ∧
      (upload_report d docId pid rid details fileName today).2.1 = false) ∧
    (∀ pid nm ag gd fid date time problem,
      (∀ i dc, (Dsa.book_appointment d pid nm ag gd fid date time problem).2.2
        ≠ Dsa.BookResult.booked i dc) →
      (Dsa.book_appointment d pid nm ag gd fid date time problem).2.1 = false ∧
      (Dsa.book_appointment d pid nm ag gd fid date time problem).1.users = d.users ∧
      (Dsa.book_appointment d pid nm ag gd fid date time problem).1.doctors = d.doctors ∧
      (Dsa.book_appointment d pid nm ag gd fid date time problem).1.appointments = d.appointments ∧
      (Dsa.book_appointment d pid nm ag gd fid date time problem).1.reports = d.reports ∧
      (Dsa.book_appointment d pid nm ag gd fid date time problem).1.referrals = d.referrals ∧
      ((Dsa.book_appointment d pid nm ag gd fid date time problem).1.patients = d.patients ∨
       (Dsa.book_appointment d pid nm ag gd fid date time problem).1.patients
         = d.patients ++ [(pid, ⟨pid, nm, ag, gd⟩)])) := by
  refine ⟨?_, ?_, ?_, ?_, ?_, ?_⟩
  · intro freshId nm sp pw h
    by_cases hc : (d.users.lookup ((nm.toLower).replace " " "_")).isSome = true
    · constructor <;> simp [add_doctor, hc]
    · simp [add_doctor, hc] at h
  · intro currentId freshPid freshApptId nm ag gd date time problem s h
    cases hsort : (d.doctors.filter fun doc => doc.specialty == resolveSpecialty problem).mergeSort
        (fun x y => decide (bookKey d date x ≤ bookKey d date y)) with
    | nil => constructor <;> simp [book_appointment, hsort]
    | cons doc rest => simp [book_appointment, hsort] at h
  · intro pid nm ag gd fid problem nowDate nowTime
    rfl
  · intro fromId pid toId notes today h
    by_cases h1 : (d.patients.lookup pid).isNone = true
    · constructor <;> simp [create_referral, h1]
    · by_cases h2 : ((d.doctors.find? fun doc => doc.id == toId).isNone) = true
      · constructor <;> simp [create_referral, h1, h2]
      · exact absurd (by simp [create_referral, h1, h2]) h
  · intro docId pid rid details fileName today h
    by_cases h1 : (d.patients.lookup pid).isNone = true
    · constructor <;> simp [upload_report, h1]
    · simp [upload_report, h1] at h
  · intro pid nm ag gd fid date time problem hnb
    rcases dsa_book_failure_shape d pid nm ag gd fid date time problem with ⟨i, dc, hb⟩ | ⟨res, hb⟩
    · exact absurd hb (hnb i dc)
    · rw [hb]
      exact ⟨rfl, ensurePatient_users d pid nm ag gd, ensurePatient_doctors d pid nm ag gd,
        ensurePatient_appointments d pid nm ag gd, ensurePatient_reports d pid nm ag gd,
        ensurePatient_referrals d pid nm ag gd, ensurePatient_patients d pid nm ag gd⟩

/-- Witness for C4 as amended: a referral naming an unknown patient in the
empty document fails, leaves the document unchanged and saves nothing. -/
theorem operations_persist_only_after_validation_witness :
    (create_referral wData0 none "p9" "d9" "note" "2025-01-01").1 = wData0 ∧
    (create_referral wData0 none "p9" "d9" "note" "2025-01-01").2.1 = false := by
  have h := operations_persist_only_after_validation wData0
  exact h.2.2.2.1 none "p9" "d9" "note" "2025-01-01" (by decide)

set_option maxRecDepth 4000 in
/-- C5: the allowed time set of the lineage variant is exactly the set of
10-minute boundaries with hours 9 to 11 and 14 to 17, 18 morning plus 24
afternoon slots making 42 in all, and a request outside the set is rejected
as an invalid slot before any doctor assignment is attempted, changing
neither the doctors nor the appointments. -/
theorem allowed_times_are_42_ten_minute_slots :
    Dsa.allowed_times = tenMinuteBoundaries 9 11 ++ tenMinuteBoundaries 14 17 ∧
    (tenMinuteBoundaries 9 11).length = 18 ∧
    (tenMinuteBoundaries 14 17).length = 24 ∧
    Dsa.allowed_times.length = 42 ∧
    (∀ d pid nm ag gd fid date time problem,
      time ∉ Dsa.allowed_times →
      Dsa.book_appointment d pid nm ag gd fid date time problem
        = (ensurePatient d pid nm ag gd, false, Dsa.BookResult.invalidSlot) ∧
      (ensurePatient d pid nm ag gd).appointments = d.appointments ∧
      (ensurePatient d pid nm ag gd).doctors = d.doctors) := by
  refine ⟨by decide, by decide, by decide, by decide, ?_⟩
  intro d pid nm ag gd fid date time problem ht
  refine ⟨?_, ensurePatient_appointments d pid nm ag gd, ensurePatient_doctors d pid nm ag gd⟩
  simp only [Dsa.book_appointment]
  rw [if_pos ht]

/-- Witness for C5: noon is not an allowed slot, so the lineage booking is
rejected as an invalid slot with nothing booked. -/
theorem allowed_times_are_42_ten_minute_slots_witness :
    Dsa.book_appointment wData1 "p1" "Pat One" "30" "F" "x9" "2025-01-02" "12:00" "Heart"
      = (ensurePatient wData1 "p1" "Pat One" "30" "F", false, Dsa.BookResult.invalidSlot) := by
  have h := allowed_times_are_42_ten_minute_slots
  exact (h.2.2.2.2 wData1 "p1" "Pat One" "30" "F" "x9" "2025-01-02" "12:00" "Heart"
    (by decide)).1

/-- One pass of the upcoming checkup loop either keeps the accumulator,
where for any way this appointment qualifies the accumulator already holds a
value at least as early, or replaces it by this appointment's record, which
qualifies and is strictly earlier than any accumulator value. -/
theorem upcomingStep_spec (d : Data) (pid : String) (now : Nat) (acc : Option Upcoming)
    (a : Appointment) :
    (upcomingStep d pid now acc a = acc ∧
      ∀ k, qualifies pid now a k → ∃ v, acc = some v ∧ v.datetime ≤ k) ∨
    (∃ k, qualifies pid now a k ∧
      upcomingStep d pid now acc a
        = some ⟨k, a.date, a.time, doctorName d a.doctor_id, a.problem⟩ ∧
      ∀ v, acc = some v → k < v.datetime) := by
  unfold upcomingStep
  by_cases hpa : a.patient_id = pid ∧ pyLower (pyStrip a.status) = "approved"
  · rw [if_pos hpa]
    cases hp : parseDateTime a.date a.time with
    | none =>
      left
      refine ⟨rfl, ?_⟩
      rintro k ⟨-, -, hk, -⟩
      rw [hp] at hk
      exact absurd hk (by simp)
    | some k0 =>
      dsimp only
      by_cases hnk : now < k0
      · rw [if_pos hnk]
        cases acc with
        | none =>
          right
          exact ⟨k0, ⟨hpa.1, hpa.2, hp, hnk⟩, rfl, by rintro v ⟨⟩⟩
        | some v =>
          dsimp only
          by_cases hkv : k0 < v.datetime
          · right
            rw [if_pos hkv]
            refine ⟨k0, ⟨hpa.1, hpa.2, hp, hnk⟩, rfl, ?_⟩
            rintro v' hv'
            cases hv'
            exact hkv
          · left
            rw [if_neg hkv]
            refine ⟨rfl, ?_⟩
            rintro k ⟨-, -, hk, -⟩
            rw [hp] at hk
            cases hk
            exact ⟨v, rfl, by omega⟩
      · rw [if_neg hnk]
        left
        refine ⟨rfl, ?_⟩
        rintro k ⟨-, -, hk, hnow⟩
        rw [hp] at hk
        cases hk
        exact absurd hnow hnk
  · rw [if_neg hpa]
    left
    refine ⟨rfl, ?_⟩
    rintro k ⟨h1, h2, -, -⟩
    exact absurd ⟨h1, h2⟩ hpa

/-- Invariant of the whole upcoming checkup fold: it is some whenever the
accumulator is or some listed appointment qualifies; any produced value
either is the accumulator or stems from a qualifying listed appointment;
and the produced value is no later than the accumulator and than every way
a listed appointment qualifies. -/
theorem upcoming_foldl_spec (d : Data) (pid : String) (now : Nat) :
    ∀ (l : List Appointment) (acc : Option Upcoming),
      (((∃ v, acc = some v) ∨ ∃ a ∈ l, ∃ k, qualifies pid now a k) →
        ∃ u, l.foldl (upcomingStep d pid now) acc = some u) ∧
      (∀ u, l.foldl (upcomingStep d pid now) acc = some u →
        acc = some u ∨
        (now < u.datetime ∧ ∃ a ∈ l, a.patient_id = pid ∧
          pyLower (pyStrip a.status) = "approved" ∧
          parseDateTime a.date a.time = some u.datetime ∧
          a.date = u.date ∧ a.time = u.time)) ∧
      (∀ u, l.foldl (upcomingStep d pid now) acc = some u →
        (∀ v, acc = some v → u.datetime ≤ v.datetime) ∧
        (∀ a ∈ l, ∀ k, qualifies pid now a k → u.datetime ≤ k)) := by
  intro l
  induction l with
  | nil =>
    intro acc
    refine ⟨?_, ?_, ?_⟩
    · rintro (⟨v, hv⟩ | ⟨a, ha, -⟩)
      · exact ⟨v, hv⟩
      · exact absurd ha (List.not_mem_nil a)
    · intro u h
      exact Or.inl h
    · intro u h
      refine ⟨?_, ?_⟩
      · intro v hv
        have h2 : acc = some u := h
        rw [h2] at hv
        cases hv
        exact Nat.le_refl _
      · intro a ha
        exact absurd ha (List.not_mem_nil a)
  | cons a l ih =>
    intro acc
    rcases upcomingStep_spec d pid now acc a with ⟨heq, hkeep⟩ | ⟨k, hqual, heq, hlt⟩
    · refine ⟨?_, ?_, ?_⟩
      · rintro (⟨v, hv⟩ | ⟨b, hb, kb, hkb⟩)
        · exact (ih (upcomingStep d pid now acc a)).1 (Or.inl ⟨v, by rw [heq, hv]⟩)
        · rcases List.mem_cons.mp hb with hbe | hb
          · rw [hbe] at hkb
            obtain ⟨v, hv, -⟩ := hkeep kb hkb
            exact (ih (upcomingStep d pid now acc a)).1 (Or.inl ⟨v, by rw [heq, hv]⟩)
          · exact (ih (upcomingStep d pid now acc a)).1 (Or.inr ⟨b, hb, kb, hkb⟩)
      · intro u h
        rw [List.foldl_cons] at h
        rcases ((ih (upcomingStep d pid now acc a)).2.1 u h) with hu | ⟨hnow, b, hb, hrest⟩
        · rw [heq] at hu
          exact Or.inl hu
        · exact Or.inr ⟨hnow, b, List.mem_cons_of_mem a hb, hrest⟩
      · intro u h
        rw [List.foldl_cons] at h
        obtain ⟨hacc, hlist⟩ := (ih (upcomingStep d pid now acc a)).2.2 u h
        refine ⟨?_, ?_⟩
        · intro v hv
          exact hacc v (by rw [heq, hv])
        · intro b hb kb hkb
          rcases List.mem_cons.mp hb with hbe | hb
          · rw [hbe] at hkb
            obtain ⟨v, hv, hvk⟩ := hkeep kb hkb
            exact Nat.le_trans (hacc v (by rw [heq, hv])) hvk
          · exact hlist b hb kb hkb
    · refine ⟨?_, ?_, ?_⟩
      · intro _
        exact (ih (upcomingStep d pid now acc a)).1
          (Or.inl ⟨⟨k, a.date, a.time, doctorName d a.doctor_id, a.problem⟩, by rw [heq]⟩)
      · intro u h
        rw [List.foldl_cons] at h
        rcases ((ih (upcomingStep d pid now acc a)).2.1 u h) with hu | ⟨hnow, b, hb, hrest⟩
        · rw [heq] at hu
          cases hu
          exact Or.inr ⟨hqual.2.2.2, a, List.mem_cons_self a l, hqual.1, hqual.2.1,
            hqual.2.2.1, rfl, rfl⟩
        · exact Or.inr ⟨hnow, b, List.mem_cons_of_mem a hb, hrest⟩
      · intro u h
        rw [List.foldl_cons] at h
        obtain ⟨hacc, hlist⟩ := (ih (upcomingStep d pid now acc a)).2.2 u h
        have huk : u.datetime ≤ k :=
          hacc ⟨k, a.date, a.time, doctorName d a.doctor_id, a.problem⟩ (by rw [heq])
        refine ⟨?_, ?_⟩
        · intro v hv
          exact Nat.le_trans huk (Nat.le_of_lt (hlt v hv))
        · intro b hb kb hkb
          rcases List.mem_cons.mp hb with hbe | hb
          · rw [hbe] at hkb
            have hkk : kb = k := by
              have h1 := hkb.2.2.1
              have h2 := hqual.2.2.1
              rw [h1] at h2
              exact Option.some.inj h2
            rw [hkk]
            exact huk
          · exact hlist b hb kb hkb

/-- C6: the upcoming checkup view never returns an appointment whose parsed
date and time is not strictly after the current instant; whenever some
Approved appointment of the patient parses to a strictly future instant it
returns one, and the returned instant is the earliest among all such
appointments; it returns none when no future Approved appointment exists. -/
theorem get_upcoming_checkup_future_earliest (d : Data) (pid : String) (now : Nat) :
    (∀ u, get_upcoming_checkup d pid now = some u →
      now < u.datetime ∧
      (∃ a ∈ d.appointments, a.patient_id = pid ∧ pyLower (pyStrip a.status) = "approved" ∧
        parseDateTime a.date a.time = some u.datetime ∧ a.date = u.date ∧ a.time = u.time) ∧
      (∀ a ∈ d.appointments, ∀ k, qualifies pid now a k → u.datetime ≤ k)) ∧
    ((∃ a ∈ d.appointments, ∃ k, qualifies pid now a k) →
      ∃ u, get_upcoming_checkup d pid now = some u) ∧
    ((¬ ∃ a ∈ d.appointments, ∃ k, qualifies pid now a k) →
      get_upcoming_checkup d pid now = none) := by
  have hspec := upcoming_foldl_spec d pid now d.appointments none
  refine ⟨?_, ?_, ?_⟩
  · intro u h
    rcases hspec.2.1 u h with hu | ⟨hnow, hex⟩
    · exact absurd hu (by simp)
    · exact ⟨hnow, hex, fun a ha k hk => (hspec.2.2 u h).2 a ha k hk⟩
  · intro hex
    exact hspec.1 (Or.inr hex)
  · intro hnone
    cases hu : get_upcoming_checkup d pid now with
    | none => rfl
    | some u =>
      rcases hspec.2.1 u hu with hc | ⟨hnow, b, hb, hp1, hp2, hp3, -, -⟩
      · exact absurd hc (by simp)
      · exact absurd ⟨b, hb, u.datetime, hp1, hp2, hp3, hnow⟩ hnone

/-- Witness for C6: with two future appointments the view returns one, and
evaluating it on the concrete document yields the earlier of the two. -/
theorem get_upcoming_checkup_future_earliest_witness :
    (∃ u, get_upcoming_checkup wData6 "p1" 0 = some u) ∧
    get_upcoming_checkup wData6 "p1" 0
      = some ⟨(((((2026 * 13 + 1) * 32 + 1) * 24 + 9) * 60 + 0) * 60),
              "2026-01-01", "09:00", "Dr. A", "Heart"⟩ := by
  constructor
  · have h := get_upcoming_checkup_future_earliest wData6 "p1" 0
    exact h.2.1 ⟨⟨"u2", "p1", some "dA", "2026-01-01", "09:00", "Heart", "Approved"⟩,
      by decide, (((((2026 * 13 + 1) * 32 + 1) * 24 + 9) * 60 + 0) * 60), by decide⟩
  · decide

/-- An optional string is falsy exactly when it is null or the empty string. -/
theorem optTruthy_eq_false (o : Option String) :
    optTruthy o = false ↔ o = none ∨ o = some "" := by
  cases o with
  | none => simp [optTruthy]
  | some s => simp [optTruthy]

/-- C7 counterexample: an emergency whose doctor_id is the empty string —
neither the querying doctor's id nor null — still appears in the doctor's
emergency view, because the source tests Python truthiness, not null-ness. -/
theorem emergency_with_empty_doctor_id_visible :
    (⟨"e1", "p1", some "", "2025-01-01", "10:00", "X", "Emergency"⟩ : Appointment)
        ∈ get_emergency_cases wData7 "doc1" ∧
    (some "" : Option String) ≠ some "doc1" ∧ (some "" : Option String) ≠ none := by
  decide

/-- C7 as amended: the emergency view returns exactly the appointments whose
status lower-cases to emergency and whose doctor_id equals the querying
doctor's id or is falsy (null or the empty string); in particular an
unassigned emergency appears in the view of every doctor who queries. -/
theorem emergency_view_membership (d : Data) (doctorId : String) :
    (∀ a, a ∈ get_emergency_cases d doctorId ↔
      a ∈ d.appointments ∧ pyLower (pyStrip a.status) = "emergency" ∧
      (a.doctor_id = some doctorId ∨ a.doctor_id = none ∨ a.doctor_id = some "")) ∧
    (∀ a ∈ d.appointments, pyLower (pyStrip a.status) = "emergency" → a.doctor_id = none →
      ∀ did2 : String, a ∈ get_emergency_cases d did2) := by
  have hmem : ∀ (did2 : String) (a : Appointment), a ∈ get_emergency_cases d did2 ↔
      a ∈ d.appointments ∧ pyLower (pyStrip a.status) = "emergency" ∧
      (a.doctor_id = some did2 ∨ a.doctor_id = none ∨ a.doctor_id = some "") := by
    intro did2 a
    rw [get_emergency_cases, List.mem_filter]
    simp only [Bool.and_eq_true, Bool.or_eq_true, beq_iff_eq, Bool.not_eq_true',
      optTruthy_eq_false, and_congr_right_iff, or_assoc]
  refine ⟨hmem doctorId, ?_⟩
  intro a ha hst hdid did2
  exact (hmem did2 a).mpr ⟨ha, hst, Or.inr (Or.inl hdid)⟩

/-- Witness for C7: the unassigned emergency of the concrete document shows
up in the views of two unrelated doctors. -/
theorem emergency_view_membership_witness :
    (⟨"e2", "p1", none, "2025-01-01", "10:05", "Y", "Emergency"⟩ : Appointment)
        ∈ get_emergency_cases wData7 "docX" ∧
    (⟨"e2", "p1", none, "2025-01-01", "10:05", "Y", "Emergency"⟩ : Appointment)
        ∈ get_emergency_cases wData7 "docY" := by
  have h := emergency_view_membership wData7 "docX"
  exact ⟨h.2 _ (by decide) (by decide) rfl "docX", h.2 _ (by decide) (by decide) rfl "docY"⟩

/-- Looking a key up in an appended association list skips the first part
when the key is absent from it. -/
theorem lookup_append_of_none {β : Type} (l1 l2 : List (String × β)) (k : String)
    (h : l1.lookup k = none) : (l1 ++ l2).lookup k = l2.lookup k := by
  induction l1 with
  | nil => rfl
  | cons p t ih =>
    rw [List.lookup] at h
    rw [List.cons_append, List.lookup]
    by_cases hk : (k == p.1) = true
    · rw [hk] at h
      simp at h
    · rw [Bool.not_eq_true] at hk
      rw [hk] at h ⊢
      exact ih h

/-- C8 counterexample: signing up with a capitalized username succeeds and
stores the lower-cased form, but a subsequent login with the very same
credentials fails, because the login path does not lower-case the username. -/
theorem signup_login_same_credentials_can_fail :
    (signup wData0 "p1" "Alice" "pw" "Al" "30" "F").2.2 = SignupResult.ok "alice" "p1" ∧
    login_route (signup wData0 "p1" "Alice" "pw" "Al" "30" "F").1 "Alice" "pw" = none := by
  decide

/-- C8 as amended: a signup with a fresh username (after normalization)
creates exactly one User of role Patient and one Patient record sharing the
fresh id, and a subsequent login with the normalized (stripped,
lower-cased) username and the stripped password succeeds. -/
theorem signup_creates_matching_records (d : Data)
    (freshPid username password name age gender2 : String)
    (hu : d.users.lookup (pyLower (pyStrip username)) = none) :
    ∃ d1, signup d freshPid username password name age gender2
        = (d1, true, SignupResult.ok (pyLower (pyStrip username)) freshPid) ∧
      d1.users = d.users ++
        [(pyLower (pyStrip username), ⟨pyStrip password, "Patient", some freshPid⟩)] ∧
      d1.patients = d.patients ++
        [(freshPid, ⟨freshPid, pyStrip name, pyStrip age, pyStrip gender2⟩)] ∧
      login d1 (pyLower (pyStrip username)) (pyStrip password)
        = some ⟨pyLower (pyStrip username), "Patient", some freshPid⟩ := by
  refine ⟨Data.mk
      (d.users ++ [(pyLower (pyStrip username), ⟨pyStrip password, "Patient", some freshPid⟩)])
      (d.patients ++ [(freshPid, ⟨freshPid, pyStrip name, pyStrip age, pyStrip gender2⟩)])
      d.doctors d.appointments d.reports d.referrals, ?_, rfl, rfl, ?_⟩
  · rw [signup]
    rw [if_neg (by rw [hu]; simp)]
  · rw [login]
    dsimp only
    rw [lookup_append_of_none _ _ _ hu]
    rw [List.lookup]
    simp

/-- Witness for C8: a fresh all-lower-case signup on the empty document,
followed by a successful login with the stored credentials. -/
theorem signup_creates_matching_records_witness :
    ∃ d1, signup wData0 "p1" "bob" "pw" "Bo" "30" "M"
        = (d1, true, SignupResult.ok "bob" "p1") ∧
      login d1 "bob" "pw" = some ⟨"bob", "Patient", some "p1"⟩ := by
  have h := signup_creates_matching_records wData0 "p1" "bob" "pw" "Bo" "30" "M" (by decide)
  obtain ⟨d1, h1, -, -, h4⟩ := h
  have e1 : pyLower (pyStrip "bob") = "bob" := by decide
  have e2 : pyStrip "pw" = "pw" := by decide
  rw [e1] at h1 h4
  rw [e2] at h4
  exact ⟨d1, h1, h4⟩

/-- C9: createReferral succeeds exactly when the patient id and the target
doctor id both exist; failures name which id was invalid (the patient check
first), leave the document unchanged and save nothing; success appends
exactly one referral record and saves; no from-doctor check exists, so a
self-referral with an existing target is accepted. -/
theorem create_referral_validates_both_ids (d : Data) (fromId : Option String)
    (pid toId notes today : String) :
    ((create_referral d fromId pid toId notes today).2.2 = ReferralResult.ok ↔
      (d.patients.lookup pid).isSome ∧ (d.doctors.find? fun doc => doc.id == toId).isSome) ∧
    ((create_referral d fromId pid toId notes today).2.2 = ReferralResult.patientNotFound ↔
      (d.patients.lookup pid).isNone) ∧
    ((create_referral d fromId pid toId notes today).2.2 = ReferralResult.doctorNotFound ↔
      (d.patients.lookup pid).isSome ∧ (d.doctors.find? fun doc => doc.id == toId).isNone) ∧
    ((create_referral d fromId pid toId notes today).2.2 = ReferralResult.ok →
      create_referral d fromId pid toId notes today
        = ({d with referrals := d.referrals ++ [⟨pid, fromId, toId, today, notes⟩]},
           true, ReferralResult.ok)) ∧
    ((create_referral d fromId pid toId notes today).2.2 ≠ ReferralResult.ok →
      create_referral d fromId pid toId notes today
        = (d, false, (create_referral d fromId pid toId notes today).2.2)) ∧
    ((d.patients.lookup pid).isSome ∧ (d.doctors.find? fun doc => doc.id == toId).isSome →
      (create_referral d (some toId) pid toId notes today).2.2 = ReferralResult.ok) := by
  cases hp : d.patients.lookup pid with
  | none => simp [create_referral, hp]
  | some pr =>
    cases hd : d.doctors.find? (fun doc => doc.id == toId) with
    | none => simp [create_referral, hp, hd]
    | some dr => simp [create_referral, hp, hd]

/-- Witness for C9: in a document holding patient p1 and doctor d1, a
self-referral of d1 for p1 succeeds. -/
theorem create_referral_validates_both_ids_witness :
    (create_referral wData9 (some "d1") "p1" "d1" "note" "2025-01-01").2.2
      = ReferralResult.ok := by
  have h := create_referral_validates_both_ids wData9 (some "d1") "p1" "d1" "note" "2025-01-01"
  exact h.2.2.2.2.2 (by decide)

/-- Writing an appointment into the grid never changes the slot times. -/
theorem updateSlots_map_time (sched : List Slot) (t : String) (a : Appointment) (p : String) :
    (updateSlots sched t a p).map (fun s => s.time) = sched.map (fun s => s.time) := by
  induction sched with
  | nil => rfl
  | cons s rest ih =>
    rw [updateSlots]
    split
    · rfl
    · rw [List.map_cons, List.map_cons, ih]

/-- Writing an appointment replaces the first row of the matching slot time
by a Booked row carrying that appointment's data. -/
theorem find?_updateSlots_eq (sched : List Slot) (t : String) (a : Appointment) (p : String)
    (s0 : Slot) (h : sched.find? (fun s => s.time == t) = some s0) :
    (updateSlots sched t a p).find? (fun s => s.time == t)
      = some ⟨t, "Booked", p, a.problem, some a.id⟩ := by
  induction sched with
  | nil => simp at h
  | cons s rest ih =>
    rw [updateSlots]
    by_cases hs : s.time = t
    · rw [if_pos hs]
      rw [List.find?_cons_of_pos _ (by simp [hs])]
      rw [hs]
    · rw [if_neg hs]
      rw [List.find?_cons_of_neg _ (by simp [hs])] at h
      rw [List.find?_cons_of_neg _ (by simp [hs])]
      exact ih h

/-- Writing at one slot time leaves the row of any other slot time as it was. -/
theorem find?_updateSlots_ne (sched : List Slot) (t : String) (a : Appointment) (p : String)
    (t2 : String) (hne : t2 ≠ t) :
    (updateSlots sched t a p).find? (fun s => s.time == t2)
      = sched.find? (fun s => s.time == t2) := by
  induction sched with
  | nil => rfl
  | cons s rest ih =>
    rw [updateSlots]
    by_cases hs : s.time = t
    · rw [if_pos hs]
      rw [List.find?_cons_of_neg _ (by simp [hs]; exact fun hh => hne hh.symm)]
      rw [List.find?_cons_of_neg _ (by simp [hs]; exact fun hh => hne hh.symm)]
    · rw [if_neg hs]
      by_cases hst : s.time = t2
      · rw [List.find?_cons_of_pos _ (by simp [hst]), List.find?_cons_of_pos _ (by simp [hst])]
      · rw [List.find?_cons_of_neg _ (by simp [hst]), List.find?_cons_of_neg _ (by simp [hst])]
        exact ih

/-- In the fresh grid, the row of each slot time is the Available row. -/
theorem find?_map_emptySlot (ts : List String) (t : String) (h : t ∈ ts) :
    (ts.map emptySlot).find? (fun s => s.time == t) = some (emptySlot t) := by
  induction ts with
  | nil => cases h
  | cons x xs ih =>
    rw [List.map_cons]
    by_cases hx : x = t
    · subst hx
      rw [List.find?_cons_of_pos _ (by simp [emptySlot])]
    · rw [List.find?_cons_of_neg _ (by simp [emptySlot, hx])]
      rcases List.mem_cons.mp h with he | hm
      · exact (hx he.symm).elim
      · exact ih hm

/-- Appending in front does not change a nonempty last element. -/
theorem getLast?_cons_of_some {α : Type} (a b : α) (l : List α) (h : l.getLast? = some b) :
    (a :: l).getLast? = some b := by
  cases l with
  | nil => simp at h
  | cons c cs => rw [List.getLast?_cons_cons]; exact h

/-- The Boolean grid-write condition unfolded into propositions. -/
theorem bookedFor_eq_true (doctorId today t : String) (a : Appointment) :
    bookedFor doctorId today t a = true ↔
      a.doctor_id = some doctorId ∧ a.date = today ∧
      pyLower (pyStrip a.status) = "approved" ∧ pyStrip a.time = t := by
  simp [bookedFor, and_assoc]

/-- The slot-time sequence of the grid never changes through the fold. -/
theorem foldl_today_map_time (d : Data) (doctorId today : String) :
    ∀ (l : List Appointment) (sched : List Slot),
      (l.foldl (todayStep d doctorId today) sched).map (fun s => s.time)
        = sched.map (fun s => s.time) := by
  intro l
  induction l with
  | nil => intro sched; rfl
  | cons a l ih =>
    intro sched
    rw [List.foldl_cons, ih, todayStep]
    split
    · exact updateSlots_map_time sched (pyStrip a.time) a (patientName d a.patient_id)
    · rfl

/-- Running the grid fold over a list of appointments: the row of slot time
t ends as the Booked row of the last listed appointment written into t, or
stays as it began when none matches. -/
theorem foldl_today_char (d : Data) (doctorId today : String) :
    ∀ (l : List Appointment) (sched : List Slot) (t : String) (s0 : Slot),
      sched.find? (fun s => s.time == t) = some s0 →
      (l.foldl (todayStep d doctorId today) sched).find? (fun s => s.time == t)
        = some (match (l.filter (bookedFor doctorId today t)).getLast? with
            | none => s0
            | some a => ⟨t, "Booked", patientName d a.patient_id, a.problem, some a.id⟩) := by
  intro l
  induction l with
  | nil =>
    intro sched t s0 h
    simpa using h
  | cons a l ih =>
    intro sched t s0 h
    rw [List.foldl_cons]
    by_cases hm : a.doctor_id = some doctorId ∧ a.date = today ∧
        pyLower (pyStrip a.status) = "approved"
    · have hstep : todayStep d doctorId today sched a
          = updateSlots sched (pyStrip a.time) a (patientName d a.patient_id) := by
        rw [todayStep, if_pos hm]
      by_cases ht : pyStrip a.time = t
      · have hb : bookedFor doctorId today t a = true :=
          (bookedFor_eq_true doctorId today t a).mpr ⟨hm.1, hm.2.1, hm.2.2, ht⟩
        rw [ht] at hstep
        rw [List.filter_cons_of_pos hb, hstep]
        have h2 := find?_updateSlots_eq sched t a (patientName d a.patient_id) s0 h
        rw [ih (updateSlots sched t a (patientName d a.patient_id)) t _ h2]
        cases hlast : (l.filter (bookedFor doctorId today t)).getLast? with
        | none =>
          have hfl : l.filter (bookedFor doctorId today t) = [] :=
            List.getLast?_eq_none_iff.mp hlast
          rw [hfl]
          rfl
        | some b =>
          rw [getLast?_cons_of_some a b _ hlast]
      · have hb : bookedFor doctorId today t a = false := by
          cases hbv : bookedFor doctorId today t a with
          | false => rfl
          | true => exact absurd ((bookedFor_eq_true doctorId today t a).mp hbv).2.2.2 ht
        rw [List.filter_cons_of_neg (by simp [hb]), hstep]
        have h2 := find?_updateSlots_ne sched (pyStrip a.time) a (patientName d a.patient_id)
          t (fun he => ht he.symm)
        exact ih _ t s0 (h2.trans h)
    · have hstep : todayStep d doctorId today sched a = sched := by
        rw [todayStep, if_neg hm]
      have hb : bookedFor doctorId today t a = false := by
        cases hbv : bookedFor doctorId today t a with
        | false => rfl
        | true =>
          have hx := (bookedFor_eq_true doctorId today t a).mp hbv
          exact absurd ⟨hx.1, hx.2.1, hx.2.2.1⟩ hm
      rw [List.filter_cons_of_neg (by simp [hb]), hstep]
      exact ih sched t s0 h

/-- With all slot times distinct, the row found for a scheduled row's time is
that row itself. -/
theorem mem_eq_find?_of_nodup_times (sched : List Slot)
    (hnd : (sched.map (fun s => s.time)).Nodup) (s : Slot) (hs : s ∈ sched) :
    sched.find? (fun x => x.time == s.time) = some s := by
  induction sched with
  | nil => cases hs
  | cons x rest ih =>
    rw [List.map_cons, List.nodup_cons] at hnd
    rcases List.mem_cons.mp hs with hse | hs2
    · rw [hse]
      rw [List.find?_cons_of_pos _ (by simp)]
    · have hxt : x.time ≠ s.time := by
        intro he
        exact hnd.1 (he ▸ List.mem_map_of_mem (fun y => y.time) hs2)
      rw [List.find?_cons_of_neg _ (by simp [hxt])]
      exact ih hnd.2 hs2

/-- C10 counterexample: with two Approved appointments of the same doctor at
the same slot time, the grid row shows the second one of the appointments
list, not the first. -/
theorem today_grid_shows_last_same_slot_appointment :
    ((get_today_appointments wData10 "d1" "2025-03-03").find?
        (fun s => s.time == "09:00")).map (fun s => s.appt_id) = some (some "a2") ∧
    (wData10.appointments.filter (bookedFor "d1" "2025-03-03" "09:00")).head?.map
        (fun a => a.id) = some "a1" ∧
    "a1" ≠ "a2" := by
  decide

/-- C10 as amended: the grid view returns exactly 42 rows whose times are
the fixed strictly ascending slot list; the row of each slot time shows the
last of the doctor's Approved same-day appointments whose stripped time
equals that slot (Available when none does), so each row is booked by at
most one appointment; and every Booked row stems from an appointment whose
stripped time is one of the 42 slot times, so an appointment with any other
time string is silently absent. -/
theorem today_schedule_grid (d : Data) (doctorId today : String) :
    (get_today_appointments d doctorId today).map (fun s => s.time) = slots ∧
    slots.length = 42 ∧
    List.Pairwise (fun x y : String => x.data < y.data) slots ∧
    (∀ t ∈ slots,
      (get_today_appointments d doctorId today).find? (fun s => s.time == t)
        = some (match (d.appointments.filter (bookedFor doctorId today t)).getLast? with
            | none => emptySlot t
            | some a => ⟨t, "Booked", patientName d a.patient_id, a.problem, some a.id⟩)) ∧
    (∀ s ∈ get_today_appointments d doctorId today, s.status = "Booked" →
      ∃ a ∈ d.appointments, bookedFor doctorId today s.time a = true ∧ s.time ∈ slots) := by
  have hmap : (get_today_appointments d doctorId today).map (fun s => s.time) = slots := by
    rw [get_today_appointments, foldl_today_map_time]
    decide
  have hpair : List.Pairwise (fun x y : String => x.data < y.data) slots := by decide
  have hchar : ∀ t ∈ slots,
      (get_today_appointments d doctorId today).find? (fun s => s.time == t)
        = some (match (d.appointments.filter (bookedFor doctorId today t)).getLast? with
            | none => emptySlot t
            | some a => ⟨t, "Booked", patientName d a.patient_id, a.problem, some a.id⟩) := by
    intro t ht
    exact foldl_today_char d doctorId today d.appointments (slots.map emptySlot) t
      (emptySlot t) (find?_map_emptySlot slots t ht)
  refine ⟨hmap, by decide, hpair, hchar, ?_⟩
  intro s hs hbooked
  have hnd : ((get_today_appointments d doctorId today).map (fun x => x.time)).Nodup := by
    rw [hmap]
    decide
  have hts : s.time ∈ slots := by
    rw [← hmap]
    exact List.mem_map_of_mem (fun x => x.time) hs
  have hfind := mem_eq_find?_of_nodup_times _ hnd s hs
  rw [hchar s.time hts] at hfind
  cases hlast : (d.appointments.filter (bookedFor doctorId today s.time)).getLast? with
  | none =>
    rw [hlast] at hfind
    have : s = emptySlot s.time := by
      have := Option.some.inj hfind
      exact this.symm
    rw [this] at hbooked
    simp [emptySlot] at hbooked
  | some a =>
    have ha := List.mem_of_getLast?_eq_some hlast
    rw [List.mem_filter] at ha
    exact ⟨a, ha.1, ha.2, hts⟩

/-- Witness for C10: on the concrete document the afternoon slot at 14:00
has no matching appointment and stays Available. -/
theorem today_schedule_grid_witness :
    (get_today_appointments wData10 "d1" "2025-03-03").find? (fun s => s.time == "14:00")
      = some (emptySlot "14:00") := by
  have h := today_schedule_grid wData10 "d1" "2025-03-03"
  rw [h.2.2.2.1 "14:00" (by decide)]
  decide

end HMS
